import Mathlib

/-!
Verification of the consensus-probability aggregation and formatting core of
`Sports_bot_web.py`.

Modelling conventions:
* Python floats reachable in this program are modelled exactly: finite values
  as rationals, plus the IEEE special values `inf`, `-inf`, `nan`.  Every
  arithmetic step performed by the program on these values is exact (no
  rounding is involved on any modelled path), so the model is faithful.
* Python dicts keyed by team name are modelled as insertion-ordered
  association lists with first-match lookup, matching dict semantics for the
  accesses the program performs.
* Python `str` is modelled as Lean `String` in the formatter and as
  `List Char` (a list of code points) in the chunker, where structural
  reasoning about characters is needed.  `len` is the code-point count in
  both models, as in Python.
* Timestamp parsing plus timezone conversion (`datetime.fromisoformat`,
  `astimezone`, `strftime`) depends on the external timezone database; it is
  modelled as an explicit conversion parameter `conv : String → Option String`
  passed to the formatter, with `none` standing for a raised parse error.
  This matches the spec's configurable-timezone collaborator.
* A raised exception escaping a modelled function is an `Except.error`.
-/

/-- Python float values reachable in the converter: finite floats as exact
rationals plus the IEEE special values. -/
inductive PyVal where
  | num (q : ℚ)
  | inf
  | ninf
  | nan
deriving DecidableEq, Repr

/-- Raw `price` values as they reach `float(ml)`: a token parsing to a finite
number, tokens parsing to the IEEE special values (`float("inf")` and
friends succeed in Python), a non-numeric value (`float` raises `ValueError`,
caught by the bare `except`), or a missing field (`outcome.get("price")` is
`None` and `float(None)` raises `TypeError`, likewise caught). -/
inductive MLInput where
  | numTok (q : ℚ)
  | infTok
  | ninfTok
  | nanTok
  | badTok
  | missing
deriving DecidableEq, Repr

/-- `float(ml)`: `none` models a raised-and-caught conversion error. -/
def pyFloat : MLInput → Option PyVal
  | .numTok q => some (.num q)
  | .infTok => some .inf
  | .ninfTok => some .ninf
  | .nanTok => some .nan
  | .badTok => none
  | .missing => none

/-- IEEE negation on the modelled float values. -/
def pyNeg : PyVal → PyVal
  | .num q => .num (-q)
  | .inf => .ninf
  | .ninf => .inf
  | .nan => .nan

/-- IEEE addition on the modelled float values (exact on finite values). -/
def pyAdd : PyVal → PyVal → PyVal
  | .nan, _ => .nan
  | _, .nan => .nan
  | .num a, .num b => .num (a + b)
  | .inf, .ninf => .nan
  | .ninf, .inf => .nan
  | .inf, _ => .inf
  | _, .inf => .inf
  | .ninf, _ => .ninf
  | _, .ninf => .ninf

/-- IEEE division on the modelled float values (exact on finite values).
Dividing a finite value or an infinity by `.num 0` raises
`ZeroDivisionError` in Python; those cases are unreachable on every path the
program takes (all such denominators are proved nonzero), and the `.nan`
placeholder there is never inspected. -/
def pyDiv : PyVal → PyVal → PyVal
  | .nan, _ => .nan
  | _, .nan => .nan
  | .num a, .num b => if b = 0 then .nan else .num (a / b)
  | .num _, .inf => .num 0
  | .num _, .ninf => .num 0
  | .inf, .inf => .nan
  | .inf, .ninf => .nan
  | .ninf, .inf => .nan
  | .ninf, .ninf => .nan
  | .inf, .num b => if b < 0 then .ninf else .inf
  | .ninf, .num b => if b < 0 then .inf else .ninf

/-- IEEE `<` on the modelled float values; every comparison with `nan` is
false, as in Python. -/
def pyLt : PyVal → PyVal → Bool
  | .nan, _ => false
  | _, .nan => false
  | .num a, .num b => decide (a < b)
  | .num _, .inf => true
  | .num _, .ninf => false
  | .inf, .inf => false
  | .inf, .num _ => false
  | .inf, .ninf => false
  | .ninf, .ninf => false
  | .ninf, _ => true

/-- Python `max(a, b)`: keeps `a` unless `b > a`. -/
def pyMax (a b : PyVal) : PyVal := if pyLt a b then b else a

/-- The arithmetic expression of `implied_prob_from_moneyline`, line 33:
`(-ml)/((-ml)+100.0) if ml < 0 else 100.0/(ml+100.0)`. -/
def mlFormula (v : PyVal) : PyVal :=
  if pyLt v (.num 0) then pyDiv (pyNeg v) (pyAdd (pyNeg v) (.num 100))
  else pyDiv (.num 100) (pyAdd v (.num 100))

/-- `implied_prob_from_moneyline` (lines 30-35): convert the price with
`float`, returning `None` when that raises, otherwise apply the moneyline
formula. -/
def implied_prob_from_moneyline (ml : MLInput) : Option PyVal :=
  match pyFloat ml with
  | none => none
  | some v => some (mlFormula v)

/-- One entry of a market's `outcomes` array. -/
structure Outcome where
  name : Option String
  price : MLInput
deriving DecidableEq, Repr

/-- One entry of a bookmaker's `markets` array. -/
structure Market where
  key : Option String
  outcomes : List Outcome
deriving DecidableEq, Repr

/-- One entry of an event's `bookmakers` array. -/
structure Bookmaker where
  markets : List Market
deriving DecidableEq, Repr

/-- One event object as consumed by the core (fields the code reads;
`get` on a missing field yields `none`). -/
structure Event where
  home_team : Option String
  away_team : Option String
  commence_time : Option String
  bookmakers : List Bookmaker
deriving DecidableEq, Repr

/-- Python dict lookup on an insertion-ordered association list. -/
def dictGet {V : Type} : List (Option String × V) → Option String → Option V
  | [], _ => none
  | (k, v) :: rest, key => if key = k then some v else dictGet rest key

/-- Python dict assignment: overwrite an existing key in place, else append. -/
def dictSet {V : Type} : List (Option String × V) → Option String → V → List (Option String × V)
  | [], key, v => [(key, v)]
  | (k, w) :: rest, key, v =>
    if key = k then (k, v) :: rest else (k, w) :: dictSet rest key v

/-- `team_probs[name].append(p)`: append to the list stored at an existing
key (the caller has already checked membership). -/
def dictAppend (d : List (Option String × List PyVal)) (key : Option String) (p : PyVal) :
    List (Option String × List PyVal) :=
  match dictGet d key with
  | some v => dictSet d key (v ++ [p])
  | none => d

/-- `team_probs = {home: [], away: []}` (line 57). -/
def team_probs0 (e : Event) : List (Option String × List PyVal) :=
  dictSet (dictSet [] e.home_team []) e.away_team []

/-- Body of the innermost loop (lines 62-65): convert the outcome's price
and append it when conversion produced a value and the outcome's name is a
key of `team_probs`. -/
def addOutcome (d : List (Option String × List PyVal)) (o : Outcome) :
    List (Option String × List PyVal) :=
  match implied_prob_from_moneyline o.price with
  | none => d
  | some p => if (dictGet d o.name).isSome then dictAppend d o.name p else d

/-- Market loop body (lines 59-61): only `h2h` markets contribute. -/
def processMarket (d : List (Option String × List PyVal)) (m : Market) :
    List (Option String × List PyVal) :=
  if m.key = some "h2h" then m.outcomes.foldl addOutcome d else d

/-- Bookmaker loop body (line 58). -/
def processBookmaker (d : List (Option String × List PyVal)) (b : Bookmaker) :
    List (Option String × List PyVal) :=
  b.markets.foldl processMarket d

/-- The fully accumulated `team_probs` of `best_consensus_pick`. -/
def collectProbs (e : Event) : List (Option String × List PyVal) :=
  e.bookmakers.foldl processBookmaker (team_probs0 e)

/-- `sum(v)`: Python `sum` starts from `0`. -/
def pySum (v : List PyVal) : PyVal := v.foldl pyAdd (.num 0)

/-- `sum(v)/len(v)`. -/
def pyMean (v : List PyVal) : PyVal := pyDiv (pySum v) (.num (v.length : ℚ))

/-- `av = {t: (sum(v)/len(v) if v else None) for t, v in team_probs.items()}`
(line 66). -/
def avOf (e : Event) : List (Option String × Option PyVal) :=
  (collectProbs e).map (fun tv => (tv.1, if tv.2 = [] then none else some (pyMean tv.2)))

/-- `av.get(key)`: a missing key and a stored `None` both read as `None`. -/
def avGet (d : List (Option String × Option PyVal)) (key : Option String) : Option PyVal :=
  match dictGet d key with
  | some v => v
  | none => none

/-- `best_consensus_pick` (lines 55-74): decision policy over the per-team
averages.  Line 68 is `winner = home if av[home] > av[away] else away` and
line 69 returns `max(av[home], av[away])` as the confidence. -/
def best_consensus_pick (e : Event) :
    Option String × Option PyVal × List (Option String × Option PyVal) :=
  let av := avOf e
  match avGet av e.home_team, avGet av e.away_team with
  | some h, some a =>
    (if pyLt a h then e.home_team else e.away_team, some (pyMax h a), av)
  | some h, none => (e.home_team, some h, av)
  | none, some a => (e.away_team, some a, av)
  | none, none => (none, none, av)

/-- Rendering of an optional string in an f-string: `None` prints as the
literal `None`. -/
def optStr : Option String → String
  | some s => s
  | none => "None"

/-- Round-half-to-even to an integer, the rounding used by Python `round`. -/
def halfEven (x : ℚ) : ℤ :=
  if x - ⌊x⌋ < 1/2 then ⌊x⌋
  else if 1/2 < x - ⌊x⌋ then ⌊x⌋ + 1
  else if ⌊x⌋ % 2 = 0 then ⌊x⌋ else ⌊x⌋ + 1

/-- `round(x*100, 1)` followed by f-string rendering.  On a finite value the
result is a one-decimal number rendered as `D.d`; the decimal string is the
exact value (Python prints the shortest repr of the nearest float, which
agrees on these one-decimal quantities for the magnitudes at hand). -/
def pctString : PyVal → String
  | .num q =>
    let n := halfEven (q * 100 * 10)
    s!"{n / 10}.{(n % 10).natAbs}"
  | .inf => "inf"
  | .ninf => "-inf"
  | .nan => "nan"

/-- `fmt = lambda x: f"{round(x*100,1)}%" if x is not None else "N/A"`. -/
def fmtProb : Option PyVal → String
  | some x => pctString x ++ "%"
  | none => "N/A"

/-- Python truthiness of the winner name: `None` and the empty string are
falsy. -/
def pyTruthyStr : Option String → Bool
  | some s => !(s == "")
  | none => false

/-- The indented pick line(s) for one event (lines 84-89). -/
def pickLines (e : Event) : List String :=
  match best_consensus_pick e with
  | (pick, p, probs) =>
    if pyTruthyStr pick then
      match p with
      | some v =>
        let w := optStr pick
        let hp := fmtProb (avGet probs e.home_team)
        let ap := fmtProb (avGet probs e.away_team)
        let cf := pctString v
        [s!"    Pick: {w}  (home {hp} | away {ap})  Confidence: {cf}%"]
      | none => ["    Pick: Not enough odds data yet."]
    else ["    Pick: Not enough odds data yet."]

/-- The lines contributed by one event (lines 80-89).  `to_local_date`
raising (unparseable or missing `commence_time`) is `Except.error`. -/
def eventLines (conv : String → Option String) (with_picks : Bool) (e : Event) :
    Except Unit (List String) :=
  match e.commence_time.bind conv with
  | none => Except.error ()
  | some startLocal =>
    let a := optStr e.away_team
    let h := optStr e.home_team
    let base := s!"• {a} @ {h} — {startLocal}"
    if with_picks then Except.ok (base :: pickLines e) else Except.ok [base]

/-- The event loop of `format_games`: concatenates per-event lines, the
first raised error aborting the whole call. -/
def linesFor (conv : String → Option String) (with_picks : Bool) :
    List Event → Except Unit (List String)
  | [] => Except.ok []
  | e :: es =>
    match eventLines conv with_picks e with
    | Except.error u => Except.error u
    | Except.ok l =>
      match linesFor conv with_picks es with
      | Except.error u => Except.error u
      | Except.ok r => Except.ok (l ++ r)

/-- `key=lambda x: x.get("commence_time", "")` (line 79). -/
def sortKey (e : Event) : String := e.commence_time.getD ""

instance : DecidableRel (fun a b : Event => sortKey a ≤ sortKey b) :=
fun a b => inferInstanceAs (Decidable (sortKey a ≤ sortKey b))

/-- `sorted(events, key=...)`: a stable sort by the commence-time key. -/
def pySorted (l : List Event) : List Event :=
  List.insertionSort (fun a b => sortKey a ≤ sortKey b) l

/-- `format_games` (lines 76-90). -/
def format_games (conv : String → Option String) (events : List Event)
    (with_picks : Bool) : Except Unit String :=
  match events with
  | [] => Except.ok "No games found for that date."
  | _ :: _ =>
    match linesFor conv with_picks (pySorted events) with
    | Except.error u => Except.error u
    | Except.ok ls => Except.ok (String.intercalate "\n" ls)

/-- The characters Python `str.splitlines` treats as line boundaries:
`\n`, `\r`, `\v`, `\f`, the file/group/record separators, NEL, and the
Unicode line/paragraph separators. -/
def isLineBreak (c : Char) : Bool :=
  c = '\n' || c = '\r' || c = '\x0b' || c = '\x0c' ||
  c = '\x1c' || c = '\x1d' || c = '\x1e' ||
  c = '\x85' || c = '\u2028' || c = '\u2029'

/-- Python `str.splitlines`: splits at every line-boundary character, with
`\r\n` counted as a single boundary, no trailing empty line for a trailing
boundary, and `[]` for the empty string. -/
def pySplitlines : List Char → List (List Char)
  | [] => []
  | '\r' :: '\n' :: rest => [] :: pySplitlines rest
  | c :: rest =>
    if isLineBreak c then [] :: pySplitlines rest
    else
      match pySplitlines rest with
      | [] => [[c]]
      | l :: ls => (c :: l) :: ls

/-- The loop of `chunk_text` (lines 93-99): `out` and `cur` are the
accumulator list and the current chunk. -/
def chunkGo (limit : Nat) (out : List (List Char)) (cur : List Char) :
    List (List Char) → List (List Char)
  | [] => if cur = [] then out else out ++ [cur]
  | ln :: rest =>
    if cur.length + ln.length + 1 > limit then chunkGo limit (out ++ [cur]) ln rest
    else chunkGo limit out (if cur = [] then ln else cur ++ '\n' :: ln) rest

/-- `chunk_text` (lines 92-100). -/
def chunk_text (s : List Char) (limit : Nat := 3800) : List (List Char) :=
  chunkGo limit [] [] (pySplitlines s)

/-- Join a list of lines with newlines (`"\n".join`). -/
def joinNL : List (List Char) → List Char
  | [] => []
  | [l] => l
  | l :: l2 :: rest => l ++ '\n' :: joinNL (l2 :: rest)

/-- `chunkGo` lifted to operate on chunks kept as groups of source lines
rather than joined strings; `chunkGo` is its image under `joinNL` whenever
no line is empty. -/
def greedyGo (limit : Nat) (acc : List (List (List Char))) (g : List (List Char)) :
    List (List Char) → List (List (List Char))
  | [] => if g = [] then acc else acc ++ [g]
  | ln :: rest =>
    if (joinNL g).length + ln.length + 1 > limit then greedyGo limit (acc ++ [g]) [ln] rest
    else greedyGo limit acc (g ++ [ln]) rest

/-- The grouping of lines into chunks that `chunk_text` computes. -/
def greedyChunks (limit : Nat) (lns : List (List Char)) : List (List (List Char)) :=
  greedyGo limit [] [] lns

/-- Total length of a block of lines counted with one separator per line. -/
def extLen (lns : List (List Char)) : Nat := (lns.map (fun l => l.length + 1)).sum

/-- How many further lines the greedy loop packs into the current chunk when
the chunk so far has joined length `c`. -/
def greedyTake (limit : Nat) (c : Nat) : List (List Char) → Nat
  | [] => 0
  | ln :: rest =>
    if c + ln.length + 1 > limit then 0
    else greedyTake limit (c + ln.length + 1) rest + 1

/-- Event whose home quotes are `-inf` only: the home average is NaN, which
the code treats as present. -/
def c6Event : Event :=
  ⟨some "H", some "A", some "2025-01-01T00:00:00Z",
   [⟨[⟨some "h2h", [⟨some "H", .ninfTok⟩, ⟨some "A", .numTok 100⟩]⟩]⟩]⟩

/-- Event whose commence time the conversion rejects. -/
def c7Event : Event := ⟨some "H", some "A", some "not-a-timestamp", []⟩

/-- First of two events with distinct commence times. -/
def c9Event1 : Event := ⟨some "H1", some "A1", some "2025-01-01T00:00:00Z", []⟩

/-- Second of two events with distinct commence times. -/
def c9Event2 : Event := ⟨some "H2", some "A2", some "2025-01-02T00:00:00Z", []⟩

/-- Every-bookmaker-agrees-at-even-odds event: both teams priced at +100, so
both averages are the identical value. -/
def c1Event : Event :=
  ⟨some "H", some "A", some "2025-01-01T00:00:00Z",
   [⟨[⟨some "h2h", [⟨some "H", .numTok 100⟩, ⟨some "A", .numTok 100⟩]⟩]⟩]⟩

/-- Clean event for the C6 witness: home at -110, away at +100. -/
def c6WitnessEvent : Event :=
  ⟨some "H", some "A", some "2025-01-01T00:00:00Z",
   [⟨[⟨some "h2h", [⟨some "H", .numTok (-110)⟩, ⟨some "A", .numTok 100⟩]⟩]⟩]⟩

/-- The event with every outcome naming neither team removed (markets,
bookmakers and the team fields untouched). -/
def filterEvent (e : Event) : Event :=
  ⟨e.home_team, e.away_team, e.commence_time,
    e.bookmakers.map (fun b =>
      ⟨b.markets.map (fun m =>
        ⟨m.key, m.outcomes.filter
          (fun o => o.name == e.home_team || o.name == e.away_team)⟩)⟩)⟩

/-- Event containing an outcome named neither home nor away ("Draw"), one
missing its name, a non-h2h market and a malformed price. -/
def c10Event : Event :=
  ⟨some "H", some "A", some "2025-01-01T00:00:00Z",
   [⟨[⟨some "h2h",
        [⟨some "H", .numTok (-120)⟩, ⟨some "A", .numTok 110⟩,
         ⟨some "Draw", .numTok 250⟩, ⟨none, .numTok 300⟩,
         ⟨some "H", .badTok⟩]⟩,
      ⟨some "totals", [⟨some "Over", .numTok (-105)⟩]⟩]⟩]⟩

/-- C2: for every price parsing as a finite number the converter returns
`(-ml)/((-ml)+100)` for `ml < 0` and `100/(ml+100)` otherwise, a value
strictly inside `(0,1)` for negative prices and inside `(0,1]` for
nonnegative ones. -/
theorem c2_implied_prob_finite (q : ℚ) :
    implied_prob_from_moneyline (.numTok q)
      = some (.num (if q < 0 then (-q) / ((-q) + 100) else 100 / (q + 100)))
    ∧ (q < 0 → 0 < (-q) / ((-q) + 100) ∧ (-q) / ((-q) + 100) < 1)
    ∧ (0 ≤ q → 0 < 100 / (q + 100) ∧ 100 / (q + 100) ≤ 1) := by
  refine ⟨?_, fun hq => ⟨?_, ?_⟩, fun hq => ⟨?_, ?_⟩⟩
  · by_cases hq : q < 0
    · have hd : -q + 100 ≠ 0 := by nlinarith
      simp [implied_prob_from_moneyline, pyFloat, mlFormula, pyLt, pyNeg, pyAdd, pyDiv,
        hq, hd]
    · have hd : q + 100 ≠ 0 := by nlinarith [not_lt.mp hq]
      simp [implied_prob_from_moneyline, pyFloat, mlFormula, pyLt, pyNeg, pyAdd, pyDiv,
        hq, hd]
  · exact div_pos (by linarith) (by linarith)
  · rw [div_lt_one (by linarith)]; linarith
  · exact div_pos (by linarith) (by linarith)
  · rw [div_le_one (by linarith)]; linarith

/-- Witness for C2 at the spec's own example `ml = -110`. -/
theorem c2_witness :
    0 < (-(-110 : ℚ)) / ((-(-110 : ℚ)) + 100)
    ∧ (-(-110 : ℚ)) / ((-(-110 : ℚ)) + 100) < 1 :=
  (c2_implied_prob_finite (-110)).2.1 (by norm_num)

/-- C3 counterexample: `float("inf")` parses successfully in Python, so an
infinite price does not come back absent; the converter returns `0.0`. -/
theorem c3_counterexample :
    implied_prob_from_moneyline .infTok = some (.num 0)
    ∧ implied_prob_from_moneyline .infTok ≠ none := ⟨rfl, by decide⟩

/-- C3 amended: inputs on which `float` raises (non-numeric values, missing
prices) come back absent with no error escaping; infinities and NaN parse
successfully instead and flow through the formula, yielding `0.0` for `+inf`
and NaN for `-inf` and NaN. -/
theorem c3_unparseable_absent :
    (∀ ml, pyFloat ml = none → implied_prob_from_moneyline ml = none)
    ∧ implied_prob_from_moneyline .infTok = some (.num 0)
    ∧ implied_prob_from_moneyline .ninfTok = some .nan
    ∧ implied_prob_from_moneyline .nanTok = some .nan := by
  refine ⟨fun ml h => ?_, rfl, rfl, rfl⟩
  cases ml <;> simp_all [implied_prob_from_moneyline, pyFloat]

/-- Witness for C3 (amended) at a non-numeric price. -/
theorem c3_witness : implied_prob_from_moneyline .badTok = none :=
  c3_unparseable_absent.1 .badTok rfl

/-- C8: the empty event sequence formats to exactly the literal
no-games line, for either value of `with_picks`. -/
theorem c8_empty_formats_to_no_games (conv : String → Option String) (with_picks : Bool) :
    format_games conv [] with_picks = Except.ok "No games found for that date." := rfl

/-- C1 counterexample: on `c1Event` both averages are present and exactly
equal, yet the winner returned is the away team, not home: line 68 reads
`winner = home if av[home] > av[away] else away`, and a tie makes the strict
`>` false, selecting away. -/
theorem c1_counterexample :
    avGet (avOf c1Event) c1Event.home_team = avGet (avOf c1Event) c1Event.away_team
    ∧ (avGet (avOf c1Event) c1Event.home_team).isSome = true
    ∧ (best_consensus_pick c1Event).1 ≠ c1Event.home_team
    ∧ (best_consensus_pick c1Event).1 = c1Event.away_team := by
  have hwin : (best_consensus_pick c1Event).1 = some "A" := by
    show (if pyLt (pyMean [mlFormula (.num 100)]) (pyMean [mlFormula (.num 100)])
          then some "H" else some "A" : Option String) = some "A"
    have h : pyLt (pyMean [mlFormula (.num 100)]) (pyMean [mlFormula (.num 100)])
        = false := by
      norm_num [pyMean, pySum, mlFormula, pyLt, pyAdd, pyDiv, pyNeg, List.foldl]
    rw [h]; simp
  exact ⟨rfl, rfl, by rw [hwin]; decide, hwin⟩

/-- C1 amended: when both average probabilities are present and exactly
equal, `best_consensus_pick` selects the away team (the strict `>` of
line 68 is false on a tie, so the `else away` branch is taken). -/
theorem c1_tie_selects_away (e : Event) (v : PyVal)
    (hh : avGet (avOf e) e.home_team = some v)
    (ha : avGet (avOf e) e.away_team = some v) :
    (best_consensus_pick e).1 = e.away_team := by
  have hlt : pyLt v v = false := by cases v <;> simp [pyLt]
  simp [best_consensus_pick, hh, ha, hlt]

/-- Witness for C1 (amended) on the concrete tied event. -/
theorem c1_witness : (best_consensus_pick c1Event).1 = c1Event.away_team :=
  c1_tie_selects_away c1Event (pyMean [mlFormula (.num 100)]) rfl rfl

/-- C6 counterexample: on `c6Event` both averages are present (home is NaN,
away is 1/2), a winner is determined (away), but the returned confidence is
`max(nan, 0.5) = nan`, not the winner's average 1/2: `max` keeps its first
argument because `0.5 > nan` is false. -/
theorem c6_counterexample :
    (avGet (avOf c6Event) c6Event.home_team).isSome = true
    ∧ (avGet (avOf c6Event) c6Event.away_team).isSome = true
    ∧ (best_consensus_pick c6Event).1 = c6Event.away_team
    ∧ (best_consensus_pick c6Event).2.1 = some .nan
    ∧ avGet (avOf c6Event) c6Event.away_team = some (.num (1/2))
    ∧ (some PyVal.nan : Option PyVal) ≠ some (.num (1/2)) := by
  have hval : pyMean [mlFormula (PyVal.num 100)] = .num (1/2) := by
    norm_num [pyMean, pySum, List.foldl, mlFormula, pyLt, pyAdd, pyDiv, pyNeg]
  have hh : avGet (avOf c6Event) c6Event.home_team = some .nan := rfl
  have ha : avGet (avOf c6Event) c6Event.away_team
      = some (pyMean [mlFormula (PyVal.num 100)]) := rfl
  rw [hval] at ha
  refine ⟨rfl, by rw [ha]; rfl, ?_, ?_, ha, ?_⟩
  · simp [best_consensus_pick, hh, ha, pyLt]
  · simp [best_consensus_pick, hh, ha, pyLt, pyMax]
  · intro hcon
    have := Option.some.inj hcon
    simp at this

/-- C6 amended: provided neither average is an IEEE special value (each is
absent or a finite number), whenever a winner is determined the confidence
equals that winner's average, and with both averages present it is the
larger of the two. -/
theorem c6_confidence_is_winner_average (e : Event)
    (hh : avGet (avOf e) e.home_team = none
      ∨ ∃ q, avGet (avOf e) e.home_team = some (.num q))
    (ha : avGet (avOf e) e.away_team = none
      ∨ ∃ q, avGet (avOf e) e.away_team = some (.num q))
    (hp : avGet (avOf e) e.home_team ≠ none ∨ avGet (avOf e) e.away_team ≠ none) :
    (best_consensus_pick e).2.1 = avGet (avOf e) (best_consensus_pick e).1
    ∧ (∀ qh qa, avGet (avOf e) e.home_team = some (.num qh) →
        avGet (avOf e) e.away_team = some (.num qa) →
        (best_consensus_pick e).2.1 = some (.num (max qh qa))) := by
  rcases hh with hh | ⟨qh, hh⟩
  · rcases ha with ha | ⟨qa, ha⟩
    · exact absurd hh (by tauto)
    · refine ⟨?_, ?_⟩
      · simp [best_consensus_pick, hh, ha]
      · intro qh qa h1 h2
        rw [hh] at h1; exact Option.noConfusion h1
  · rcases ha with ha | ⟨qa, ha⟩
    · refine ⟨?_, ?_⟩
      · simp [best_consensus_pick, hh, ha]
      · intro qh' qa' h1 h2
        rw [ha] at h2; exact Option.noConfusion h2
    · refine ⟨?_, ?_⟩
      · by_cases hlt : qa < qh
        · have h1 : pyLt (.num qa) (.num qh) = true := by simp [pyLt, hlt]
          have h2 : pyLt (.num qh) (.num qa) = false := by
            simp [pyLt]; linarith
          simp [best_consensus_pick, hh, ha, h1, h2, pyMax]
        · have h1 : pyLt (.num qa) (.num qh) = false := by simp [pyLt, hlt]
          by_cases hlt2 : qh < qa
          · have h2 : pyLt (.num qh) (.num qa) = true := by simp [pyLt, hlt2]
            simp [best_consensus_pick, hh, ha, h1, h2, pyMax]
          · have heq : qh = qa := le_antisymm (not_lt.mp hlt) (not_lt.mp hlt2)
            subst heq
            have h2 : pyLt (PyVal.num qh) (PyVal.num qh) = false := by simp [pyLt]
            simp [best_consensus_pick, hh, ha, h2, pyMax]
      · intro qh' qa' h1 h2
        rw [hh] at h1; rw [ha] at h2
        have e1 : qh = qh' := by
          have := Option.some.inj h1; simpa using this
        have e2 : qa = qa' := by
          have := Option.some.inj h2; simpa using this
        subst e1; subst e2
        by_cases hlt : qa < qh
        · have h1b : pyLt (.num qa) (.num qh) = true := by simp [pyLt, hlt]
          have h2b : pyLt (.num qh) (.num qa) = false := by simp [pyLt]; linarith
          simp [best_consensus_pick, hh, ha, h1b, h2b, pyMax, max_eq_left (le_of_lt hlt)]
        · by_cases hlt2 : qh < qa
          · have h1b : pyLt (.num qh) (.num qa) = true := by simp [pyLt, hlt2]
            simp [best_consensus_pick, hh, ha, h1b, pyMax, max_eq_right (le_of_lt hlt2)]
          · have heq : qh = qa := le_antisymm (not_lt.mp hlt) (not_lt.mp hlt2)
            subst heq
            have h1b : pyLt (PyVal.num qh) (PyVal.num qh) = false := by simp [pyLt]
            simp [best_consensus_pick, hh, ha, h1b, pyMax]

/-- If any member of the list raises, the whole line-building loop raises. -/
lemma linesFor_error (conv : String → Option String) (wp : Bool) :
    ∀ (xs : List Event) (e : Event), e ∈ xs →
      eventLines conv wp e = Except.error () →
      linesFor conv wp xs = Except.error () := by
  intro xs
  induction xs with
  | nil => intro e he _; cases he
  | cons x rest ih =>
    intro e he herr
    rcases List.mem_cons.mp he with rfl | hmem
    · simp [linesFor, herr]
    · cases hx : eventLines conv wp x with
      | error u => simp [linesFor, hx]
      | ok l => simp [linesFor, hx, ih e hmem herr]

/-- C7: if any event's commence time fails to convert, `format_games` fails
the entire call with an error and returns no lines at all. -/
theorem c7_bad_timestamp_fails_whole_call (conv : String → Option String)
    (events : List Event) (with_picks : Bool) (e : Event)
    (he : e ∈ events) (hbad : e.commence_time.bind conv = none) :
    format_games conv events with_picks = Except.error () := by
  have hmem : e ∈ pySorted events := by
    unfold pySorted
    exact (List.perm_insertionSort _ events).mem_iff.mpr he
  have herr : eventLines conv with_picks e = Except.error () := by
    simp [eventLines, hbad]
  have hall : linesFor conv with_picks (pySorted events) = Except.error () :=
    linesFor_error conv with_picks _ e hmem herr
  cases events with
  | nil => cases he
  | cons a as => simp [format_games, hall]

/-- Witness for C7: one unconvertible event makes the whole call error. -/
theorem c7_witness :
    format_games (fun _ => none) [c7Event] false = Except.error () :=
  c7_bad_timestamp_fails_whole_call (fun _ => none) [c7Event] false c7Event
    (List.mem_singleton.mpr rfl) rfl

/-- A chain of `≤` on keys that is also pairwise `≠` is pairwise `<`. -/
lemma pairwise_lt_of_le_ne : ∀ (l : List Event),
    l.Pairwise (fun a b => sortKey a ≤ sortKey b) →
    l.Pairwise (fun a b => sortKey a ≠ sortKey b) →
    l.Pairwise (fun a b => sortKey a < sortKey b)
  | [], _, _ => List.Pairwise.nil
  | _x :: xs, h1, h2 =>
    List.pairwise_cons.mpr
      ⟨fun b hb => lt_of_le_of_ne ((List.pairwise_cons.mp h1).1 b hb)
          ((List.pairwise_cons.mp h2).1 b hb),
        pairwise_lt_of_le_ne xs (List.pairwise_cons.mp h1).2 (List.pairwise_cons.mp h2).2⟩

/-- C9: the events are emitted in ascending commence-time order (the sorted
list the formatter walks is sorted under the lexicographic string order of
the keys), and for distinct commence times the output is identical for every
permutation of the input. -/
theorem c9_sorted_and_permutation_invariant (conv : String → Option String)
    (with_picks : Bool) (l l' : List Event)
    (hd : l.Pairwise (fun a b => sortKey a ≠ sortKey b))
    (hp : l.Perm l') :
    (pySorted l).Pairwise (fun a b => sortKey a ≤ sortKey b)
    ∧ format_games conv l with_picks = format_games conv l' with_picks := by
  haveI ht1 : IsTotal Event (fun a b => sortKey a ≤ sortKey b) :=
    ⟨fun a b => le_total _ _⟩
  haveI ht2 : IsTrans Event (fun a b => sortKey a ≤ sortKey b) :=
    ⟨fun a b c hab hbc => le_trans hab hbc⟩
  have hs1 : (pySorted l).Pairwise (fun a b => sortKey a ≤ sortKey b) :=
    List.sorted_insertionSort _ l
  have hs2 : (pySorted l').Pairwise (fun a b => sortKey a ≤ sortKey b) :=
    List.sorted_insertionSort _ l'
  refine ⟨hs1, ?_⟩
  have hd1 : (pySorted l).Pairwise (fun a b => sortKey a ≠ sortKey b) :=
    ((List.perm_insertionSort _ l).pairwise_iff (fun h => Ne.symm h)).mpr hd
  have hd2 : (pySorted l').Pairwise (fun a b => sortKey a ≠ sortKey b) :=
    ((List.perm_insertionSort _ l').pairwise_iff (fun h => Ne.symm h)).mpr
      ((hp.pairwise_iff (fun h => Ne.symm h)).mp hd)
  have hq : (pySorted l).Perm (pySorted l') :=
    ((List.perm_insertionSort _ l).trans hp).trans (List.perm_insertionSort _ l').symm
  have heq : pySorted l = pySorted l' :=
    @List.eq_of_perm_of_sorted _ (fun a b => sortKey a < sortKey b)
      ⟨fun a b hab hba => absurd hab (lt_asymm hba)⟩ _ _ hq
      (pairwise_lt_of_le_ne _ hs1 hd1) (pairwise_lt_of_le_ne _ hs2 hd2)
  cases l with
  | nil =>
    have : l' = [] := hp.symm.eq_nil
    rw [this]
  | cons a as =>
    cases l' with
    | nil => exact absurd hp.eq_nil (by simp)
    | cons b bs =>
      show (match linesFor conv with_picks (pySorted (a :: as)) with
        | Except.error u => Except.error u
        | Except.ok ls => Except.ok (String.intercalate "\n" ls))
        = (match linesFor conv with_picks (pySorted (b :: bs)) with
        | Except.error u => Except.error u
        | Except.ok ls => Except.ok (String.intercalate "\n" ls))
      rw [heq]

/-- Witness for C9 on two concrete events given in both orders. -/
theorem c9_witness :
    (pySorted [c9Event1, c9Event2]).Pairwise (fun a b => sortKey a ≤ sortKey b)
    ∧ format_games (fun s => some s) [c9Event1, c9Event2] true
      = format_games (fun s => some s) [c9Event2, c9Event1] true :=
  c9_sorted_and_permutation_invariant (fun s => some s) true
    [c9Event1, c9Event2] [c9Event2, c9Event1]
    (by decide) (List.Perm.swap c9Event2 c9Event1 [])

lemma dictGet_eq_none {V : Type} : ∀ (d : List (Option String × V)) (k : Option String),
    k ∉ d.map Prod.fst → dictGet d k = none
  | [], _, _ => rfl
  | (k0, v0) :: rest, k, h => by
    have h1 : k ≠ k0 := by
      intro he; exact h (by simp [he])
    have h2 : k ∉ rest.map Prod.fst := by
      intro hm; exact h (by simp [hm])
    simp [dictGet, h1, dictGet_eq_none rest k h2]

lemma dictSet_keys {V : Type} : ∀ (d : List (Option String × V)) (k : Option String) (v : V),
    (dictGet d k).isSome → (dictSet d k v).map Prod.fst = d.map Prod.fst
  | [], k, v, h => by simp [dictGet] at h
  | (k0, v0) :: rest, k, v, h => by
    by_cases he : k = k0
    · simp [dictSet, he]
    · have : (dictGet rest k).isSome := by simpa [dictGet, he] using h
      simp [dictSet, he, dictSet_keys rest k v this]

lemma dictAppend_keys (d : List (Option String × List PyVal)) (k : Option String) (p : PyVal) :
    (dictAppend d k p).map Prod.fst = d.map Prod.fst := by
  cases h : dictGet d k with
  | none => simp [dictAppend, h]
  | some v => simp [dictAppend, h, dictSet_keys d k (v ++ [p]) (by simp [h])]

lemma addOutcome_keys (d : List (Option String × List PyVal)) (o : Outcome) :
    (addOutcome d o).map Prod.fst = d.map Prod.fst := by
  cases h : implied_prob_from_moneyline o.price with
  | none => simp [addOutcome, h]
  | some p =>
    by_cases hm : (dictGet d o.name).isSome
    · simp [addOutcome, h, hm, dictAppend_keys]
    · simp [addOutcome, h, hm]

lemma foldl_addOutcome_keys : ∀ (os : List Outcome) (d : List (Option String × List PyVal)),
    (os.foldl addOutcome d).map Prod.fst = d.map Prod.fst
  | [], _ => rfl
  | o :: rest, d => by
    rw [List.foldl_cons, foldl_addOutcome_keys rest (addOutcome d o), addOutcome_keys]

lemma processMarket_keys (d : List (Option String × List PyVal)) (m : Market) :
    (processMarket d m).map Prod.fst = d.map Prod.fst := by
  by_cases h : m.key = some "h2h"
  · simp [processMarket, h, foldl_addOutcome_keys]
  · simp [processMarket, h]

lemma foldl_processMarket_keys : ∀ (ms : List Market) (d : List (Option String × List PyVal)),
    (ms.foldl processMarket d).map Prod.fst = d.map Prod.fst
  | [], _ => rfl
  | m :: rest, d => by
    rw [List.foldl_cons, foldl_processMarket_keys rest (processMarket d m), processMarket_keys]

lemma processBookmaker_keys (d : List (Option String × List PyVal)) (b : Bookmaker) :
    (processBookmaker d b).map Prod.fst = d.map Prod.fst :=
  foldl_processMarket_keys b.markets d

lemma foldl_processBookmaker_keys :
    ∀ (bs : List Bookmaker) (d : List (Option String × List PyVal)),
    (bs.foldl processBookmaker d).map Prod.fst = d.map Prod.fst
  | [], _ => rfl
  | b :: rest, d => by
    rw [List.foldl_cons, foldl_processBookmaker_keys rest (processBookmaker d b),
      processBookmaker_keys]

lemma team_probs0_keys (e : Event) (h : e.home_team ≠ e.away_team) :
    (team_probs0 e).map Prod.fst = [e.home_team, e.away_team] := by
  simp [team_probs0, dictSet, Ne.symm h]

lemma collectProbs_keys (e : Event) (h : e.home_team ≠ e.away_team) :
    (collectProbs e).map Prod.fst = [e.home_team, e.away_team] := by
  rw [collectProbs, foldl_processBookmaker_keys, team_probs0_keys e h]

lemma avOf_keys (e : Event) :
    (avOf e).map Prod.fst = (collectProbs e).map Prod.fst := by
  simp [avOf, List.map_map, Function.comp]

lemma bcp_av (e : Event) : (best_consensus_pick e).2.2 = avOf e := by
  simp only [best_consensus_pick]
  split <;> rfl

lemma addOutcome_skip (d : List (Option String × List PyVal)) (o : Outcome)
    (h : dictGet d o.name = none) : addOutcome d o = d := by
  cases hi : implied_prob_from_moneyline o.price with
  | none => simp [addOutcome, hi]
  | some p => simp [addOutcome, hi, h]

lemma foldl_addOutcome_filter (home away : Option String) :
    ∀ (os : List Outcome) (d : List (Option String × List PyVal)),
      d.map Prod.fst = [home, away] →
      (os.filter (fun o => o.name == home || o.name == away)).foldl addOutcome d
        = os.foldl addOutcome d
  | [], _, _ => rfl
  | o :: rest, d, hd => by
    by_cases hk : o.name = home ∨ o.name = away
    · have hb : (o.name == home || o.name == away) = true := by
        rcases hk with h | h <;> simp [h]
      rw [List.filter_cons, if_pos (by simp [hb]), List.foldl_cons, List.foldl_cons,
        foldl_addOutcome_filter home away rest (addOutcome d o)
          (by rw [addOutcome_keys, hd])]
    · push_neg at hk
      have hb : (o.name == home || o.name == away) = false := by
        simp [hk.1, hk.2]
      have hnone : dictGet d o.name = none :=
        dictGet_eq_none d o.name (by rw [hd]; simp [hk.1, hk.2])
      rw [List.filter_cons, if_neg (by simp [hb]), List.foldl_cons,
        addOutcome_skip d o hnone,
        foldl_addOutcome_filter home away rest d hd]

lemma processMarket_filter (home away : Option String)
    (d : List (Option String × List PyVal)) (m : Market)
    (hd : d.map Prod.fst = [home, away]) :
    processMarket d
      ⟨m.key, m.outcomes.filter (fun o => o.name == home || o.name == away)⟩
      = processMarket d m := by
  by_cases h : m.key = some "h2h"
  · simp only [processMarket, h, if_pos]
    exact foldl_addOutcome_filter home away m.outcomes d hd
  · simp [processMarket, h]

lemma foldl_processMarket_filter (home away : Option String) :
    ∀ (ms : List Market) (d : List (Option String × List PyVal)),
      d.map Prod.fst = [home, away] →
      ((ms.map (fun m =>
          (⟨m.key, m.outcomes.filter (fun o => o.name == home || o.name == away)⟩
            : Market))).foldl processMarket d)
        = ms.foldl processMarket d
  | [], _, _ => rfl
  | m :: rest, d, hd => by
    rw [List.map_cons, List.foldl_cons, List.foldl_cons,
      processMarket_filter home away d m hd,
      foldl_processMarket_filter home away rest (processMarket d m)
        (by rw [processMarket_keys, hd])]

lemma foldl_processBookmaker_filter (home away : Option String) :
    ∀ (bs : List Bookmaker) (d : List (Option String × List PyVal)),
      d.map Prod.fst = [home, away] →
      ((bs.map (fun b =>
          (⟨b.markets.map (fun m =>
            (⟨m.key, m.outcomes.filter (fun o => o.name == home || o.name == away)⟩
              : Market))⟩ : Bookmaker))).foldl processBookmaker d)
        = bs.foldl processBookmaker d
  | [], _, _ => rfl
  | b :: rest, d, hd => by
    rw [List.map_cons, List.foldl_cons, List.foldl_cons]
    have hb : processBookmaker d
        (⟨b.markets.map (fun m =>
          (⟨m.key, m.outcomes.filter (fun o => o.name == home || o.name == away)⟩
            : Market))⟩ : Bookmaker)
        = processBookmaker d b :=
      foldl_processMarket_filter home away b.markets d hd
    rw [hb, foldl_processBookmaker_filter home away rest (processBookmaker d b)
      (by rw [processBookmaker_keys, hd])]

lemma collectProbs_filter (e : Event) (h : e.home_team ≠ e.away_team) :
    collectProbs (filterEvent e) = collectProbs e := by
  show ((e.bookmakers.map _).foldl processBookmaker (team_probs0 (filterEvent e)))
    = e.bookmakers.foldl processBookmaker (team_probs0 e)
  have ht : team_probs0 (filterEvent e) = team_probs0 e := rfl
  rw [ht]
  exact foldl_processBookmaker_filter e.home_team e.away_team e.bookmakers
    (team_probs0 e) (team_probs0_keys e h)

/-- C10: for distinct team names the per-team average mapping returned as
the third component has exactly the keys home and away in that order, and
removing every outcome that names neither team leaves the whole result of
`best_consensus_pick` unchanged, so the formatter's lookups of home and away
are always defined. -/
theorem c10_av_keys_and_irrelevant_outcomes (e : Event) (h : e.home_team ≠ e.away_team) :
    ((best_consensus_pick e).2.2).map Prod.fst = [e.home_team, e.away_team]
    ∧ best_consensus_pick (filterEvent e) = best_consensus_pick e := by
  constructor
  · rw [bcp_av, avOf_keys, collectProbs_keys e h]
  · have hav : avOf (filterEvent e) = avOf e := by
      show (collectProbs (filterEvent e)).map _ = (collectProbs e).map _
      rw [collectProbs_filter e h]
    have hh : (filterEvent e).home_team = e.home_team := rfl
    have ha : (filterEvent e).away_team = e.away_team := rfl
    simp only [best_consensus_pick, hav, hh, ha]

/-- Witness for C10 on an event with a Draw outcome, a nameless outcome, a
non-h2h market and a malformed price. -/
theorem c10_witness :
    ((best_consensus_pick c10Event).2.2).map Prod.fst
      = [c10Event.home_team, c10Event.away_team]
    ∧ best_consensus_pick (filterEvent c10Event) = best_consensus_pick c10Event :=
  c10_av_keys_and_irrelevant_outcomes c10Event (by decide)

/-- Witness for C6 (amended) on a clean two-sided event. -/
theorem c6_witness :
    (best_consensus_pick c6WitnessEvent).2.1
      = avGet (avOf c6WitnessEvent) (best_consensus_pick c6WitnessEvent).1 :=
  (c6_confidence_is_winner_average c6WitnessEvent
    (Or.inr ⟨110/210, by
      show some (pyMean [mlFormula (.num (-110))]) = some (.num (110/210))
      norm_num [pyMean, pySum, List.foldl, mlFormula, pyLt, pyAdd, pyDiv, pyNeg]⟩)
    (Or.inr ⟨1/2, by
      show some (pyMean [mlFormula (.num 100)]) = some (.num (1/2))
      norm_num [pyMean, pySum, List.foldl, mlFormula, pyLt, pyAdd, pyDiv, pyNeg]⟩)
    (Or.inl (by decide))).1

lemma joinNL_append : ∀ (A B : List (List Char)), A ≠ [] → B ≠ [] →
    joinNL (A ++ B) = joinNL A ++ '\n' :: joinNL B
  | [], _, hA, _ => absurd rfl hA
  | [a], B, _, hB => by
    cases B with
    | nil => exact absurd rfl hB
    | cons b bs => simp [joinNL]
  | a :: a2 :: t, B, _, hB => by
    have ih := joinNL_append (a2 :: t) B (by simp) hB
    show joinNL (a :: ((a2 :: t) ++ B)) = (a ++ '\n' :: joinNL (a2 :: t)) ++ '\n' :: joinNL B
    have hcons : (a2 :: t) ++ B = a2 :: (t ++ B) := rfl
    rw [hcons] at ih ⊢
    show a ++ '\n' :: joinNL (a2 :: (t ++ B)) = (a ++ '\n' :: joinNL (a2 :: t)) ++ '\n' :: joinNL B
    rw [ih]
    simp

lemma flatten_ne_nil : ∀ (P : List (List (List Char))), P ≠ [] →
    (∀ g ∈ P, g ≠ []) → P.flatten ≠ []
  | [], hP, _ => absurd rfl hP
  | g :: P', _, hg => by
    have : g ≠ [] := hg g (by simp)
    cases g with
    | nil => exact absurd rfl this
    | cons l ls => simp

lemma joinNL_map_groups : ∀ (P : List (List (List Char))), (∀ g ∈ P, g ≠ []) →
    joinNL (P.map joinNL) = joinNL P.flatten
  | [], _ => rfl
  | [g], _ => by simp [joinNL]
  | g :: g2 :: t, hg => by
    have hne : (g2 :: t).flatten ≠ [] :=
      flatten_ne_nil (g2 :: t) (by simp) (fun x hx => hg x (by simp [hx]))
    have ih : joinNL ((g2 :: t).map joinNL) = joinNL (g2 :: t).flatten :=
      joinNL_map_groups (g2 :: t) (fun x hx => hg x (by simp [hx]))
    show joinNL (joinNL g :: (g2 :: t).map joinNL) = joinNL ((g :: g2 :: t).flatten)
    have h1 : joinNL (joinNL g :: (g2 :: t).map joinNL)
        = joinNL g ++ '\n' :: joinNL ((g2 :: t).map joinNL) := by
      simp [joinNL]
    rw [h1, ih]
    have h2 : (g :: g2 :: t).flatten = g ++ (g2 :: t).flatten := by simp
    rw [h2, joinNL_append g ((g2 :: t).flatten) (hg g (by simp)) hne]

lemma flatten_greedyGo (limit : Nat) : ∀ (lns : List (List Char))
    (acc : List (List (List Char))) (g : List (List Char)),
    (greedyGo limit acc g lns).flatten = acc.flatten ++ g ++ lns
  | [], acc, g => by
    by_cases hg : g = []
    · simp [greedyGo, hg]
    · simp [greedyGo, hg]
  | ln :: rest, acc, g => by
    by_cases hc : (joinNL g).length + ln.length + 1 > limit
    · show (if (joinNL g).length + ln.length + 1 > limit then
          greedyGo limit (acc ++ [g]) [ln] rest
        else greedyGo limit acc (g ++ [ln]) rest).flatten = acc.flatten ++ g ++ (ln :: rest)
      rw [if_pos hc, flatten_greedyGo limit rest (acc ++ [g]) [ln]]
      simp
    · show (if (joinNL g).length + ln.length + 1 > limit then
          greedyGo limit (acc ++ [g]) [ln] rest
        else greedyGo limit acc (g ++ [ln]) rest).flatten = acc.flatten ++ g ++ (ln :: rest)
      rw [if_neg hc, flatten_greedyGo limit rest acc (g ++ [ln])]
      simp

lemma greedyGo_acc (limit : Nat) : ∀ (lns : List (List Char))
    (acc : List (List (List Char))) (g : List (List Char)),
    greedyGo limit acc g lns = acc ++ greedyGo limit [] g lns
  | [], acc, g => by
    by_cases hg : g = [] <;> simp [greedyGo, hg]
  | ln :: rest, acc, g => by
    by_cases hc : (joinNL g).length + ln.length + 1 > limit
    · show (if (joinNL g).length + ln.length + 1 > limit then
          greedyGo limit (acc ++ [g]) [ln] rest
        else greedyGo limit acc (g ++ [ln]) rest)
        = acc ++ (if (joinNL g).length + ln.length + 1 > limit then
          greedyGo limit ([] ++ [g]) [ln] rest
        else greedyGo limit [] (g ++ [ln]) rest)
      rw [if_pos hc, if_pos hc, greedyGo_acc limit rest (acc ++ [g]) [ln],
        greedyGo_acc limit rest ([] ++ [g]) [ln]]
      simp
    · show (if (joinNL g).length + ln.length + 1 > limit then
          greedyGo limit (acc ++ [g]) [ln] rest
        else greedyGo limit acc (g ++ [ln]) rest)
        = acc ++ (if (joinNL g).length + ln.length + 1 > limit then
          greedyGo limit ([] ++ [g]) [ln] rest
        else greedyGo limit [] (g ++ [ln]) rest)
      rw [if_neg hc, if_neg hc, greedyGo_acc limit rest acc (g ++ [ln]),
        greedyGo_acc limit rest [] (g ++ [ln])]

lemma joinNL_ne_nil : ∀ (g : List (List Char)), (∀ l ∈ g, l ≠ []) → g ≠ [] →
    joinNL g ≠ []
  | [], _, hg => absurd rfl hg
  | [l], hl, _ => by simpa [joinNL] using hl l (by simp)
  | l :: l2 :: t, hl, _ => by
    have : l ≠ [] := hl l (by simp)
    show l ++ '\n' :: joinNL (l2 :: t) ≠ []
    simp

lemma greedyGo_groups_ne_nil (limit : Nat) : ∀ (lns : List (List Char))
    (acc : List (List (List Char))) (g : List (List Char)),
    (∀ G ∈ acc, G ≠ []) → (∀ l ∈ lns, l.length + 1 ≤ limit) →
    ∀ G ∈ greedyGo limit acc g lns, G ≠ []
  | [], acc, g, hacc, _ => by
    intro G hG
    by_cases hg : g = []
    · exact hacc G (by simpa [greedyGo, hg] using hG)
    · rcases (by simpa [greedyGo, hg] using hG : G ∈ acc ∨ G = g) with h | h
      · exact hacc G h
      · rw [h]; exact hg
  | ln :: rest, acc, g, hacc, hlen => by
    intro G hG
    by_cases hc : (joinNL g).length + ln.length + 1 > limit
    · have hg : g ≠ [] := by
        intro hge
        subst hge
        simp [joinNL] at hc
        have := hlen ln (by simp)
        omega
      have heq : greedyGo limit acc g (ln :: rest)
          = greedyGo limit (acc ++ [g]) [ln] rest := by
        show (if (joinNL g).length + ln.length + 1 > limit then
            greedyGo limit (acc ++ [g]) [ln] rest
          else greedyGo limit acc (g ++ [ln]) rest)
          = greedyGo limit (acc ++ [g]) [ln] rest
        rw [if_pos hc]
      rw [heq] at hG
      have hacc2 : ∀ G2 ∈ acc ++ [g], G2 ≠ [] := by
        intro G2 hG2
        rcases List.mem_append.mp hG2 with h | h
        · exact hacc G2 h
        · rw [List.mem_singleton.mp h]; exact hg
      exact greedyGo_groups_ne_nil limit rest (acc ++ [g]) [ln] hacc2
        (fun l hl => hlen l (by simp [hl])) G hG
    · have heq : greedyGo limit acc g (ln :: rest)
          = greedyGo limit acc (g ++ [ln]) rest := by
        show (if (joinNL g).length + ln.length + 1 > limit then
            greedyGo limit (acc ++ [g]) [ln] rest
          else greedyGo limit acc (g ++ [ln]) rest)
          = greedyGo limit acc (g ++ [ln]) rest
        rw [if_neg hc]
      rw [heq] at hG
      exact greedyGo_groups_ne_nil limit rest acc (g ++ [ln]) hacc
        (fun l hl => hlen l (by simp [hl])) G hG

lemma greedyGo_cons_pos (limit : Nat) (acc : List (List (List Char)))
    (g : List (List Char)) (ln : List Char) (rest : List (List Char))
    (hc : (joinNL g).length + ln.length + 1 > limit) :
    greedyGo limit acc g (ln :: rest) = greedyGo limit (acc ++ [g]) [ln] rest := by
  show (if (joinNL g).length + ln.length + 1 > limit then
      greedyGo limit (acc ++ [g]) [ln] rest
    else greedyGo limit acc (g ++ [ln]) rest)
    = greedyGo limit (acc ++ [g]) [ln] rest
  rw [if_pos hc]

lemma greedyGo_cons_neg (limit : Nat) (acc : List (List (List Char)))
    (g : List (List Char)) (ln : List Char) (rest : List (List Char))
    (hc : ¬(joinNL g).length + ln.length + 1 > limit) :
    greedyGo limit acc g (ln :: rest) = greedyGo limit acc (g ++ [ln]) rest := by
  show (if (joinNL g).length + ln.length + 1 > limit then
      greedyGo limit (acc ++ [g]) [ln] rest
    else greedyGo limit acc (g ++ [ln]) rest)
    = greedyGo limit acc (g ++ [ln]) rest
  rw [if_neg hc]

lemma chunkGo_cons_pos (limit : Nat) (out : List (List Char)) (cur : List Char)
    (ln : List Char) (rest : List (List Char))
    (hc : cur.length + ln.length + 1 > limit) :
    chunkGo limit out cur (ln :: rest) = chunkGo limit (out ++ [cur]) ln rest := by
  show (if cur.length + ln.length + 1 > limit then
      chunkGo limit (out ++ [cur]) ln rest
    else chunkGo limit out (if cur = [] then ln else cur ++ '\n' :: ln) rest)
    = chunkGo limit (out ++ [cur]) ln rest
  rw [if_pos hc]

lemma chunkGo_cons_neg (limit : Nat) (out : List (List Char)) (cur : List Char)
    (ln : List Char) (rest : List (List Char))
    (hc : ¬cur.length + ln.length + 1 > limit) :
    chunkGo limit out cur (ln :: rest)
      = chunkGo limit out (if cur = [] then ln else cur ++ '\n' :: ln) rest := by
  show (if cur.length + ln.length + 1 > limit then
      chunkGo limit (out ++ [cur]) ln rest
    else chunkGo limit out (if cur = [] then ln else cur ++ '\n' :: ln) rest)
    = chunkGo limit out (if cur = [] then ln else cur ++ '\n' :: ln) rest
  rw [if_neg hc]

lemma joinNL_snoc (g : List (List Char)) (ln : List Char) (hg : g ≠ []) :
    joinNL (g ++ [ln]) = joinNL g ++ '\n' :: ln :=
  joinNL_append g [ln] hg (by simp)

lemma length_joinNL_snoc (g : List (List Char)) (ln : List Char) (hg : g ≠ []) :
    (joinNL (g ++ [ln])).length = (joinNL g).length + ln.length + 1 := by
  rw [joinNL_snoc g ln hg]
  simp
  omega

lemma chunkGo_eq_map_joinNL (limit : Nat) : ∀ (lns : List (List Char))
    (acc : List (List (List Char))) (g : List (List Char)),
    (∀ l ∈ g, l ≠ []) → (∀ l ∈ lns, l ≠ []) →
    chunkGo limit (acc.map joinNL) (joinNL g) lns = (greedyGo limit acc g lns).map joinNL
  | [], acc, g, hg, _ => by
    by_cases hge : g = []
    · subst hge
      simp [chunkGo, greedyGo, joinNL]
    · have hne : joinNL g ≠ [] := joinNL_ne_nil g hg hge
      show (if joinNL g = [] then acc.map joinNL else acc.map joinNL ++ [joinNL g])
        = (if g = [] then acc else acc ++ [g]).map joinNL
      rw [if_neg hne, if_neg hge]
      simp
  | ln :: rest, acc, g, hg, hlns => by
    have hln : ln ≠ [] := hlns ln (by simp)
    by_cases hc : (joinNL g).length + ln.length + 1 > limit
    · rw [chunkGo_cons_pos limit _ _ _ _ hc, greedyGo_cons_pos limit _ _ _ _ hc]
      have hmap : acc.map joinNL ++ [joinNL g] = (acc ++ [g]).map joinNL := by simp
      rw [hmap]
      exact chunkGo_eq_map_joinNL limit rest (acc ++ [g]) [ln]
        (fun l hl => by rw [List.mem_singleton.mp hl]; exact hln)
        (fun l hl => hlns l (by simp [hl]))
    · rw [chunkGo_cons_neg limit _ _ _ _ hc, greedyGo_cons_neg limit _ _ _ _ hc]
      by_cases hge : g = []
      · subst hge
        have h1 : (if joinNL ([] : List (List Char)) = [] then ln
            else joinNL [] ++ '\n' :: ln) = ln := by simp [joinNL]
        rw [h1]
        exact chunkGo_eq_map_joinNL limit rest acc [ln]
          (fun l hl => by rw [List.mem_singleton.mp hl]; exact hln)
          (fun l hl => hlns l (by simp [hl]))
      · have hne : joinNL g ≠ [] := joinNL_ne_nil g hg hge
        have h1 : (if joinNL g = [] then ln else joinNL g ++ '\n' :: ln)
            = joinNL (g ++ [ln]) := by
          rw [if_neg hne, joinNL_snoc g ln hge]
        rw [h1]
        exact chunkGo_eq_map_joinNL limit rest acc (g ++ [ln])
          (fun l hl => by
            rcases List.mem_append.mp hl with h | h
            · exact hg l h
            · rw [List.mem_singleton.mp h]; exact hln)
          (fun l hl => hlns l (by simp [hl]))

lemma pySplitlines_crlf (rest : List Char) :
    pySplitlines ('\r' :: '\n' :: rest) = [] :: pySplitlines rest := rfl

lemma pySplitlines_newline (rest : List Char) :
    pySplitlines ('\n' :: rest) = [] :: pySplitlines rest := rfl

lemma isLineBreak_cr : isLineBreak '\r' = true := by decide

set_option maxHeartbeats 2000000 in
lemma pySplitlines_nonbreak_nilr (c : Char) (rest : List Char)
    (hc : isLineBreak c = false) (h0 : pySplitlines rest = []) :
    pySplitlines (c :: rest) = [[c]] := by
  unfold pySplitlines
  split
  next x heq => exact List.noConfusion heq
  next x rest2 heq =>
    obtain ⟨h1, -⟩ := List.cons_eq_cons.mp heq
    rw [h1, isLineBreak_cr] at hc
    exact Bool.noConfusion hc
  next x c2 rest2 hno heq =>
    obtain ⟨h1, h2⟩ := List.cons_eq_cons.mp heq
    subst h1
    subst h2
    rw [if_neg (by simp [hc]), h0]

set_option maxHeartbeats 2000000 in
lemma pySplitlines_nonbreak_consr (c : Char) (rest l : List Char)
    (ls : List (List Char)) (hc : isLineBreak c = false)
    (h0 : pySplitlines rest = l :: ls) :
    pySplitlines (c :: rest) = (c :: l) :: ls := by
  unfold pySplitlines
  split
  next x heq => exact List.noConfusion heq
  next x rest2 heq =>
    obtain ⟨h1, -⟩ := List.cons_eq_cons.mp heq
    rw [h1, isLineBreak_cr] at hc
    exact Bool.noConfusion hc
  next x c2 rest2 hno heq =>
    obtain ⟨h1, h2⟩ := List.cons_eq_cons.mp heq
    subst h1
    subst h2
    rw [if_neg (by simp [hc]), h0]

lemma pySplitlines_append_newline : ∀ (l : List Char) (rest : List Char),
    (∀ c ∈ l, isLineBreak c = false) →
    pySplitlines (l ++ '\n' :: rest) = l :: pySplitlines rest
  | [], rest, _ => pySplitlines_newline rest
  | c :: l2, rest, h =>
    pySplitlines_nonbreak_consr c (l2 ++ '\n' :: rest) l2 (pySplitlines rest)
      (h c (by simp))
      (pySplitlines_append_newline l2 rest (fun x hx => h x (by simp [hx])))

lemma pySplitlines_single : ∀ (l : List Char), l ≠ [] →
    (∀ c ∈ l, isLineBreak c = false) → pySplitlines l = [l]
  | [], hne, _ => absurd rfl hne
  | c :: l2, _, h => by
    by_cases hl : l2 = []
    · subst hl
      exact pySplitlines_nonbreak_nilr c [] (h c (by simp)) rfl
    · exact pySplitlines_nonbreak_consr c l2 l2 [] (h c (by simp))
        (pySplitlines_single l2 hl (fun x hx => h x (by simp [hx])))

lemma pySplitlines_joinNL : ∀ (L : List (List Char)),
    (∀ l ∈ L, l ≠ [] ∧ ∀ c ∈ l, isLineBreak c = false) →
    pySplitlines (joinNL L) = L
  | [], _ => rfl
  | [l], h => pySplitlines_single l (h l (by simp)).1 (h l (by simp)).2
  | l :: l2 :: t, h => by
    show pySplitlines (l ++ '\n' :: joinNL (l2 :: t)) = l :: l2 :: t
    rw [pySplitlines_append_newline l (joinNL (l2 :: t)) (h l (by simp)).2,
      pySplitlines_joinNL (l2 :: t) (fun x hx => h x (by simp at hx; simp [hx]))]

lemma chunk_text_eq_map (limit : Nat) (L : List (List Char))
    (h : ∀ l ∈ L, l ≠ [] ∧ ∀ c ∈ l, isLineBreak c = false) :
    chunk_text (joinNL L) limit = (greedyChunks limit L).map joinNL := by
  show chunkGo limit [] [] (pySplitlines (joinNL L)) = _
  rw [pySplitlines_joinNL L h]
  exact chunkGo_eq_map_joinNL limit L [] [] (by simp) (fun l hl => (h l hl).1)

/-- C4 amended: a 0-character input yields zero segments, and for any text
whose lines are all nonempty, free of every `splitlines` line-boundary
character, and of length strictly below the limit (the text given as the
newline-join of its line list, so it uses `\n` separators only and has no
trailing one), joining the chunks with newlines reproduces the text
exactly. -/
theorem c4_joined_chunks_reproduce_text (limit : Nat) :
    chunk_text [] limit = []
    ∧ ∀ (L : List (List Char)),
        (∀ l ∈ L, l ≠ [] ∧ (∀ c ∈ l, isLineBreak c = false) ∧ l.length + 1 ≤ limit) →
        joinNL (chunk_text (joinNL L) limit) = joinNL L := by
  refine ⟨rfl, fun L h => ?_⟩
  rw [chunk_text_eq_map limit L (fun l hl => ⟨(h l hl).1, (h l hl).2.1⟩), greedyChunks]
  rw [joinNL_map_groups _ (greedyGo_groups_ne_nil limit L [] [] (by simp)
    (fun l hl => (h l hl).2.2))]
  rw [show (greedyGo limit [] [] L).flatten = L from by
    rw [flatten_greedyGo]; simp]

/-- C4 counterexample: the text `"a\n"` ends in a newline; `splitlines`
drops the trailing separator, so `chunk_text` returns `["a"]` and the
newline-join of the segments is `"a"`, not the original text. -/
theorem c4_counterexample :
    joinNL (chunk_text ['a', '\n'] 3800) ≠ ['a', '\n'] := by decide

/-- Witness for C4 (amended) at limit 3 on the two-line text `"ab\nc"`. -/
theorem c4_witness :
    joinNL (chunk_text (joinNL [['a', 'b'], ['c']]) 3) = joinNL [['a', 'b'], ['c']] :=
  (c4_joined_chunks_reproduce_text 3).2 [['a', 'b'], ['c']] (by decide)

lemma greedyGo_groups_feasible (limit : Nat) : ∀ (lns : List (List Char))
    (acc : List (List (List Char))) (g : List (List Char)),
    (∀ G ∈ acc, (joinNL G).length ≤ limit) → (joinNL g).length ≤ limit →
    (∀ l ∈ lns, l.length + 1 ≤ limit) →
    ∀ G ∈ greedyGo limit acc g lns, (joinNL G).length ≤ limit
  | [], acc, g, hacc, hg, _ => by
    intro G hG
    by_cases hge : g = []
    · exact hacc G (by simpa [greedyGo, hge] using hG)
    · rcases (by simpa [greedyGo, hge] using hG : G ∈ acc ∨ G = g) with h | h
      · exact hacc G h
      · rw [h]; exact hg
  | ln :: rest, acc, g, hacc, hg, hlen => by
    intro G hG
    have hln : ln.length + 1 ≤ limit := hlen ln (by simp)
    by_cases hc : (joinNL g).length + ln.length + 1 > limit
    · rw [greedyGo_cons_pos limit _ _ _ _ hc] at hG
      refine greedyGo_groups_feasible limit rest (acc ++ [g]) [ln] ?_ ?_
        (fun l hl => hlen l (by simp [hl])) G hG
      · intro G2 hG2
        rcases List.mem_append.mp hG2 with h | h
        · exact hacc G2 h
        · rw [List.mem_singleton.mp h]; exact hg
      · show (joinNL [ln]).length ≤ limit
        have : joinNL [ln] = ln := rfl
        rw [this]; omega
    · rw [greedyGo_cons_neg limit _ _ _ _ hc] at hG
      refine greedyGo_groups_feasible limit rest acc (g ++ [ln]) hacc ?_
        (fun l hl => hlen l (by simp [hl])) G hG
      by_cases hge : g = []
      · subst hge
        show (joinNL [ln]).length ≤ limit
        have : joinNL [ln] = ln := rfl
        rw [this]; omega
      · rw [length_joinNL_snoc g ln hge]; omega

lemma extLen_append (A B : List (List Char)) : extLen (A ++ B) = extLen A + extLen B := by
  simp [extLen]

lemma length_joinNL_add_one : ∀ (lns : List (List Char)), lns ≠ [] →
    (joinNL lns).length + 1 = extLen lns
  | [], h => absurd rfl h
  | [l], _ => by simp [joinNL, extLen]
  | l :: l2 :: t, _ => by
    have ih := length_joinNL_add_one (l2 :: t) (by simp)
    show (l ++ '\n' :: joinNL (l2 :: t)).length + 1 = extLen (l :: l2 :: t)
    have h2 : extLen (l :: l2 :: t) = (l.length + 1) + extLen (l2 :: t) := by
      simp [extLen]
    simp only [List.length_append, List.length_cons]
    omega

lemma greedyTake_le_length (limit : Nat) : ∀ (lns : List (List Char)) (c : Nat),
    greedyTake limit c lns ≤ lns.length
  | [], _ => le_refl 0
  | ln :: rest, c => by
    show (if c + ln.length + 1 > limit then 0
      else greedyTake limit (c + ln.length + 1) rest + 1) ≤ rest.length + 1
    by_cases hc : c + ln.length + 1 > limit
    · rw [if_pos hc]; omega
    · rw [if_neg hc]
      have := greedyTake_le_length limit rest (c + ln.length + 1)
      omega

lemma greedyTake_maximal (limit : Nat) : ∀ (lns : List (List Char)) (c j : Nat),
    j ≤ lns.length → c + extLen (lns.take j) ≤ limit →
    j ≤ greedyTake limit c lns
  | _, _, 0, _, _ => Nat.zero_le _
  | [], _, j + 1, hj, _ => by simp at hj
  | ln :: rest, c, j + 1, hj, hfit => by
    have hext : extLen ((ln :: rest).take (j + 1)) = (ln.length + 1) + extLen (rest.take j) := by
      simp [extLen]
    have hc : ¬c + ln.length + 1 > limit := by
      have : 0 ≤ extLen (rest.take j) := Nat.zero_le _
      omega
    show j + 1 ≤ (if c + ln.length + 1 > limit then 0
      else greedyTake limit (c + ln.length + 1) rest + 1)
    rw [if_neg hc]
    have ih := greedyTake_maximal limit rest (c + ln.length + 1) j (by simpa using hj)
      (by omega)
    omega

lemma greedyTake_cons_pos (limit c : Nat) (ln : List Char) (rest : List (List Char))
    (hc : c + ln.length + 1 > limit) : greedyTake limit c (ln :: rest) = 0 := by
  show (if c + ln.length + 1 > limit then 0
    else greedyTake limit (c + ln.length + 1) rest + 1) = 0
  rw [if_pos hc]

lemma greedyTake_cons_neg (limit c : Nat) (ln : List Char) (rest : List (List Char))
    (hc : ¬c + ln.length + 1 > limit) :
    greedyTake limit c (ln :: rest) = greedyTake limit (c + ln.length + 1) rest + 1 := by
  show (if c + ln.length + 1 > limit then 0
    else greedyTake limit (c + ln.length + 1) rest + 1) = _
  rw [if_neg hc]

lemma greedyGo_first (limit : Nat) : ∀ (lns : List (List Char))
    (g : List (List Char)), g ≠ [] →
    (∀ l ∈ lns, l.length + 1 ≤ limit) →
    greedyGo limit [] g lns
      = (g ++ lns.take (greedyTake limit (joinNL g).length lns))
        :: greedyGo limit [] [] (lns.drop (greedyTake limit (joinNL g).length lns))
  | [], g, hg, _ => by
    simp [greedyGo, hg, greedyTake]
  | ln :: rest, g, hg, hlen => by
    by_cases hc : (joinNL g).length + ln.length + 1 > limit
    · rw [greedyGo_cons_pos limit _ _ _ _ hc,
        greedyGo_acc limit rest ([] ++ [g]) [ln],
        greedyTake_cons_pos limit _ ln rest hc]
      have h0 : greedyGo limit [] [] (ln :: rest) = greedyGo limit [] [ln] rest := by
        rw [greedyGo_cons_neg limit [] [] ln rest
          (by have h1 : (joinNL ([] : List (List Char))).length = 0 := rfl
              have h2 := hlen ln (by simp)
              omega)]
        rfl
      simp [h0]
    · rw [greedyGo_cons_neg limit _ _ _ _ hc]
      have ih := greedyGo_first limit rest (g ++ [ln]) (by simp)
        (fun l hl => hlen l (by simp [hl]))
      rw [ih, length_joinNL_snoc g ln hg,
        greedyTake_cons_neg limit _ ln rest hc]
      simp [List.take_succ_cons, List.drop_succ_cons]

lemma joinNL_length_drop_le (A : List (List Char)) (n : Nat) :
    (joinNL (A.drop n)).length ≤ (joinNL A).length := by
  by_cases h1 : A.drop n = []
  · simp [h1, joinNL]
  · have h2 : A ≠ [] := by
      intro h; subst h; simp at h1
    have e1 : (joinNL (A.drop n)).length + 1 = extLen (A.drop n) :=
      length_joinNL_add_one _ h1
    have e2 : (joinNL A).length + 1 = extLen A := length_joinNL_add_one _ h2
    have e3 : extLen A = extLen (A.take n) + extLen (A.drop n) := by
      rw [← extLen_append, List.take_append_drop]
    omega

lemma suffix_partition (limit : Nat) : ∀ (Q : List (List (List Char))) (n : Nat),
    (∀ G ∈ Q, G ≠ []) → (∀ G ∈ Q, (joinNL G).length ≤ limit) →
    ∃ Q2 : List (List (List Char)), Q2.flatten = Q.flatten.drop n
      ∧ (∀ G ∈ Q2, G ≠ []) ∧ (∀ G ∈ Q2, (joinNL G).length ≤ limit)
      ∧ Q2.length ≤ Q.length
  | [], n, _, _ => ⟨[], by simp, by simp, by simp, by simp⟩
  | G :: Q', n, hne, hfe => by
    by_cases h : n < G.length
    · refine ⟨G.drop n :: Q', ?_, ?_, ?_, by simp⟩
      · show G.drop n ++ Q'.flatten = (G ++ Q'.flatten).drop n
        rw [List.drop_append_eq_append_drop]
        have h0 : n - G.length = 0 := by omega
        rw [h0, List.drop_zero]
      · intro G2 hG2
        rcases List.mem_cons.mp hG2 with rfl | hm
        · intro hcon
          have : G.length ≤ n := by
            have := congrArg List.length hcon
            simp at this
            omega
          omega
        · exact hne G2 (by simp [hm])
      · intro G2 hG2
        rcases List.mem_cons.mp hG2 with rfl | hm
        · exact le_trans (joinNL_length_drop_le G n) (hfe G (by simp))
        · exact hfe G2 (by simp [hm])
    · push_neg at h
      rcases suffix_partition limit Q' (n - G.length)
        (fun G2 hG2 => hne G2 (by simp [hG2]))
        (fun G2 hG2 => hfe G2 (by simp [hG2])) with ⟨Q2, h1, h2, h3, h4⟩
      refine ⟨Q2, ?_, h2, h3, ?_⟩
      · rw [h1]
        show Q'.flatten.drop (n - G.length) = (G ++ Q'.flatten).drop n
        rw [List.drop_append_eq_append_drop,
          show List.drop n G = [] from List.drop_eq_nil_of_le (by omega)]
        rw [List.nil_append]
      · simp
        omega

lemma greedy_minimal (limit : Nat) : ∀ (fuel : Nat) (lns : List (List Char)),
    lns.length ≤ fuel →
    (∀ l ∈ lns, l.length + 1 ≤ limit) →
    ∀ Q : List (List (List Char)), Q.flatten = lns →
      (∀ G ∈ Q, G ≠ []) → (∀ G ∈ Q, (joinNL G).length ≤ limit) →
      (greedyGo limit [] [] lns).length ≤ Q.length
  | _, [], _, _, Q, _, _, _ => by
    have h0 : greedyGo limit [] [] ([] : List (List Char)) = [] := rfl
    rw [h0]
    exact Nat.zero_le _
  | 0, l :: rest, hf, _, _, _, _, _ => by simp at hf
  | fuel + 1, l :: rest, hf, hlen, Q, hQ, hne, hfe => by
    cases Q with
    | nil => simp at hQ
    | cons G Q' =>
      have hGne : G ≠ [] := hne G (by simp)
      cases G with
      | nil => exact absurd rfl hGne
      | cons g0 G2 =>
        have hflat : g0 :: (G2 ++ Q'.flatten) = l :: rest := by simpa using hQ
        obtain ⟨rfl, he2⟩ := List.cons_eq_cons.mp hflat
        have hstep : greedyGo limit [] [] (g0 :: rest) = greedyGo limit [] [g0] rest := by
          rw [greedyGo_cons_neg limit [] [] g0 rest
            (by have h1 : (joinNL ([] : List (List Char))).length = 0 := rfl
                have h2 := hlen g0 (by simp)
                omega)]
          rfl
        have hfirst := greedyGo_first limit rest [g0] (by simp)
          (fun x hx => hlen x (by simp [hx]))
        rw [hstep, hfirst]
        simp only [List.length_cons]
        set t := greedyTake limit (joinNL [g0]).length rest with htdef
        have hfeG : (joinNL (g0 :: G2)).length ≤ limit := hfe _ (by simp)
        have hG2len : G2.length ≤ rest.length := by
          rw [← he2]; simp
        have htake : rest.take G2.length = G2 := by
          rw [← he2]
          exact List.take_left G2 Q'.flatten
        have hmax : G2.length ≤ t := by
          rw [htdef]
          apply greedyTake_maximal limit rest _ G2.length hG2len
          rw [htake]
          have hx1 : (joinNL (g0 :: G2)).length + 1 = extLen (g0 :: G2) :=
            length_joinNL_add_one _ (by simp)
          have hx2 : extLen (g0 :: G2) = (g0.length + 1) + extLen G2 := by simp [extLen]
          have hx3 : (joinNL [g0]).length = g0.length := rfl
          omega
        have hdrop : rest.drop t = Q'.flatten.drop (t - G2.length) := by
          conv_lhs => rw [← he2]
          rw [List.drop_append_eq_append_drop,
            show List.drop t G2 = [] from List.drop_eq_nil_of_le hmax,
            List.nil_append]
        rcases suffix_partition limit Q' (t - G2.length)
          (fun G hG => hne G (by simp [hG]))
          (fun G hG => hfe G (by simp [hG])) with ⟨Q2, hq1, hq2, hq3, hq4⟩
        have hlen2 : (rest.drop t).length ≤ fuel := by
          have h1 : rest.length ≤ fuel := by
            have := hf
            simp at this
            omega
          have h2 := List.length_drop t rest
          omega
        have hrec := greedy_minimal limit fuel (rest.drop t) hlen2
          (fun x hx => hlen x
            (List.mem_cons_of_mem g0 (List.drop_subset t rest hx)))
          Q2 (by rw [hq1, hdrop]) hq2 hq3
        omega

lemma greedy_single (limit : Nat) (L : List (List Char)) (hL : L ≠ [])
    (hlen : ∀ l ∈ L, l.length + 1 ≤ limit)
    (hfit : (joinNL L).length ≤ limit) :
    greedyGo limit [] [] L = [L] := by
  cases L with
  | nil => exact absurd rfl hL
  | cons l rest =>
    have hstep : greedyGo limit [] [] (l :: rest) = greedyGo limit [] [l] rest := by
      rw [greedyGo_cons_neg limit [] [] l rest
        (by have h1 : (joinNL ([] : List (List Char))).length = 0 := rfl
            have h2 := hlen l (by simp)
            omega)]
      rfl
    rw [hstep, greedyGo_first limit rest [l] (by simp)
      (fun x hx => hlen x (by simp [hx]))]
    have hmax : rest.length ≤ greedyTake limit (joinNL [l]).length rest := by
      apply greedyTake_maximal limit rest _ rest.length (le_refl _)
      rw [List.take_length]
      by_cases hr : rest = []
      · subst hr
        have h0 : extLen ([] : List (List Char)) = 0 := rfl
        have h1 : (joinNL [l]).length = (joinNL [l]).length := rfl
        have h2 : joinNL [l] = joinNL ([l] : List (List Char)) := rfl
        have h3 : (joinNL ([l] : List (List Char))).length ≤ limit := hfit
        omega
      · have hx1 : (joinNL (l :: rest)).length + 1 = extLen (l :: rest) :=
          length_joinNL_add_one _ (by simp)
        have hx2 : extLen (l :: rest) = (l.length + 1) + extLen rest := by simp [extLen]
        have hx3 : (joinNL [l]).length = l.length := rfl
        omega
    have hle := greedyTake_le_length limit rest (joinNL [l]).length
    have ht : greedyTake limit (joinNL [l]).length rest = rest.length :=
      le_antisymm hle hmax
    rw [ht, List.take_length, List.drop_length]
    have h0 : greedyGo limit [] [] ([] : List (List Char)) = [] := rfl
    rw [h0]
    rfl

/-- C5 amended: for a `\n`-separated text all of whose lines are nonempty,
free of every `splitlines` line-boundary character, and strictly below the
limit, `chunk_text` splits exactly on line boundaries (its output
is the newline-join of a partition of the line list into nonempty
contiguous groups), every segment is within the limit, the number of
segments is minimal among all such partitions, and any nonempty text whose
total length is within the limit comes back as a single segment. -/
theorem c5_minimal_chunking (limit : Nat) (L : List (List Char))
    (h : ∀ l ∈ L, l ≠ [] ∧ (∀ c ∈ l, isLineBreak c = false) ∧ l.length + 1 ≤ limit) :
    ((greedyChunks limit L).flatten = L
      ∧ chunk_text (joinNL L) limit = (greedyChunks limit L).map joinNL
      ∧ (∀ g ∈ greedyChunks limit L, g ≠ [] ∧ (joinNL g).length ≤ limit)
      ∧ ∀ Q : List (List (List Char)), Q.flatten = L → (∀ g ∈ Q, g ≠ []) →
          (∀ g ∈ Q, (joinNL g).length ≤ limit) →
          (greedyChunks limit L).length ≤ Q.length)
    ∧ (L ≠ [] → (joinNL L).length ≤ limit →
        chunk_text (joinNL L) limit = [joinNL L]) := by
  have hlen : ∀ l ∈ L, l.length + 1 ≤ limit := fun l hl => (h l hl).2.2
  refine ⟨⟨?_, ?_, ?_, ?_⟩, ?_⟩
  · rw [greedyChunks, flatten_greedyGo]
    simp
  · exact chunk_text_eq_map limit L (fun l hl => ⟨(h l hl).1, (h l hl).2.1⟩)
  · intro g hg
    exact ⟨greedyGo_groups_ne_nil limit L [] [] (by simp) hlen g hg,
      greedyGo_groups_feasible limit L [] [] (by simp) (by simp [joinNL]) hlen g hg⟩
  · intro Q h1 h2 h3
    exact greedy_minimal limit L.length L (le_refl _) hlen Q h1 h2 h3
  · intro hne hfit
    rw [chunk_text_eq_map limit L (fun l hl => ⟨(h l hl).1, (h l hl).2.1⟩),
      greedyChunks, greedy_single limit L hne hlen hfit]
    rfl

/-- C5 counterexample: the one-character text `"\n"` is nonempty and far
below the default limit, yet `chunk_text` returns zero segments, not one:
its single line is empty, so the final `if cur` test drops it. -/
theorem c5_counterexample :
    (chunk_text ['\n'] 3800).length = 0
    ∧ (['\n'] : List Char) ≠ []
    ∧ (['\n'] : List Char).length < 3800 := by decide

/-- Witness for C5 (amended, one-segment part) at limit 3 on `"a\nb"`. -/
theorem c5_witness :
    chunk_text (joinNL [['a'], ['b']]) 3 = [joinNL [['a'], ['b']]] :=
  (c5_minimal_chunking 3 [['a'], ['b']] (by decide)).2 (by decide) (by decide)
